import Mathlib

/-!
Verification of the event-matching and probability-normalization engine of
the `deportes` repository (files `providers.py` and `main.py`).

The Python code is shallowly embedded: strings are Lean `String`s, decimal
odds prices are exact rationals (`ℚ`), timestamps are epoch seconds (`ℤ`),
and Python `None`/missing dictionary fields become `Option`.  Network I/O in
`fetch_odds` is modelled by passing the outcome of the HTTP call as an
explicit argument.  ISO-8601 timestamp parsing (`datetime.fromisoformat`) is
abstracted by the `CTime` type, which records whether the `commence_time`
field is absent/empty, present but unparseable (the parse raises), or parses
to a definite instant; the 24-hour-window arithmetic is done on epoch
seconds, which `astimezone` does not change.
-/

namespace Deportes

/-- Models Python `str.lower()` on the characters this code base meets:
ASCII letters plus the uppercase accented vowels Á É Í Ó Ú; all other
characters are returned unchanged. -/
def pyLowerChar (c : Char) : Char :=
  if c = 'Á' then 'á' else if c = 'É' then 'é' else if c = 'Í' then 'í'
  else if c = 'Ó' then 'ó' else if c = 'Ú' then 'ú' else c.toLower

/-- Models the chain
`.replace("á","a").replace("é","e").replace("í","i").replace("ó","o").replace("ú","u")`
from `providers.norm`.  Each pattern is a single character and no replacement
re-creates a later pattern, so the chain equals this character map. -/
def accentFold (c : Char) : Char :=
  if c = 'á' then 'a' else if c = 'é' then 'e' else if c = 'í' then 'i'
  else if c = 'ó' then 'o' else if c = 'ú' then 'u' else c

/-- Models Python `str.strip()`: drop whitespace from both ends. -/
def pyStrip (s : String) : String :=
  String.mk (((s.toList.dropWhile Char.isWhitespace).reverse.dropWhile
    Char.isWhitespace).reverse)

/-- `providers.norm`:
`if not s: return ""` then
`s.lower().replace("á","a").replace("é","e").replace("í","i").replace("ó","o").replace("ú","u").strip()`. -/
def norm (s : String) : String :=
  if s = "" then ""
  else pyStrip (String.mk (s.toList.map (fun c => accentFold (pyLowerChar c))))

/-- `main.norm`: `if not s: return ""` then `s.lower().strip()`
(no accent folding, no period handling). -/
def normMain (s : String) : String :=
  if s = "" then "" else pyStrip (String.mk (s.toList.map pyLowerChar))

/-- `leadsWith n l` decides whether the list `l` starts with `n`. -/
def leadsWith : List Char → List Char → Bool
  | [], _ => true
  | _ :: _, [] => false
  | a :: as, b :: bs => a = b && leadsWith as bs

/-- `hasSub n l` decides whether `n` occurs contiguously inside `l`. -/
def hasSub (n : List Char) : List Char → Bool
  | [] => n.isEmpty
  | c :: rest => leadsWith n (c :: rest) || hasSub n rest

/-- Python substring test `needle in hay` on strings. -/
def pyIn (needle hay : String) : Bool :=
  hasSub needle.toList hay.toList

/-- Contiguous-substring occurrence as a proposition, stated by explicit
decomposition of the haystack. -/
def SubStr (needle hay : String) : Prop :=
  ∃ pre post, hay.toList = pre ++ needle.toList ++ post

/-! ## Data model for odds entries (The Odds API JSON shape) -/

/-- One entry of a market's `outcomes` list: `o.get("name")` and
`o.get("price")` may each be absent. -/
structure Outcome where
  name : Option String
  price : Option ℚ
deriving DecidableEq

/-- One entry of a bookmaker's `markets` list. -/
structure Market where
  key : Option String
  outcomes : List Outcome
deriving DecidableEq

/-- One entry of an event's `bookmakers` list. -/
structure BookmakerQuote where
  markets : List Market
deriving DecidableEq

/-- The `commence_time` field of an odds event, as the correlator sees it:
`absent` models a missing or empty (falsy) field, `bad` a present string on
which `datetime.fromisoformat` raises, and `at t` a string parsing to the
instant `t` in epoch seconds. -/
inductive CTime where
  | absent
  | bad
  | at (t : ℤ)
deriving DecidableEq

/-- An odds event: `ev.get("home_team","")` and `ev.get("away_team","")`
default to `""`, so those fields are plain strings. -/
structure OddsEvent where
  home_team : String
  away_team : String
  commence_time : CTime
  bookmakers : List BookmakerQuote
deriving DecidableEq

/-! ## Event correlator: `find_odds_for_match` -/

/-- The name condition of `find_odds_for_match`, on already-normalized
strings:
`(ta and (ta in home or ta in away)) and (tb and (tb in home or tb in away))`. -/
def pairGuard (ta tb home away : String) : Bool :=
  (!(ta = "") && (pyIn ta home || pyIn ta away)) &&
  (!(tb = "") && (pyIn tb home || pyIn tb away))

/-- The pair-matching test of `find_odds_for_match` on raw names:
normalize both targets and the candidate's fields, then apply `pairGuard`. -/
def namePairTest (team_a team_b home_team away_team : String) : Bool :=
  pairGuard (norm team_a) (norm team_b) (norm home_team) (norm away_team)

/-- The loop of `find_odds_for_match` (`ta`, `tb` already normalized).
When the name condition holds the body enters a `try` block: with both a
parsed `commence_time` and a `target_dt` it computes
`diff = abs((ev_dt - target_dt).total_seconds())` and `continue`s when
`diff > 60*60*24`; a parse failure is swallowed (`except: pass`) and the
event is returned; otherwise the event is returned. -/
def findOddsLoop (ta tb : String) (target_dt : Option ℤ) :
    List OddsEvent → Option OddsEvent
  | [] => none
  | ev :: rest =>
    if pairGuard ta tb (norm ev.home_team) (norm ev.away_team) then
      match ev.commence_time, target_dt with
      | CTime.at t, some g =>
        if |t - g| > 60 * 60 * 24 then findOddsLoop ta tb target_dt rest
        else some ev
      | _, _ => some ev
    else findOddsLoop ta tb target_dt rest

/-- `providers.find_odds_for_match` (identical in `main.py`): the leading
`if not odds_list: return None` is subsumed by the empty-list loop case. -/
def find_odds_for_match (odds_list : List OddsEvent) (team_a team_b : String)
    (target_dt : Option ℤ) : Option OddsEvent :=
  findOddsLoop (norm team_a) (norm team_b) target_dt odds_list

/-- Acceptance predicate for a single candidate, read off the claim: the
name-pair test passes, and whenever both a parsed commence time and a target
time are present the candidate lies within the 24-hour window. -/
def candidateAccepted (team_a team_b : String) (target_dt : Option ℤ)
    (ev : OddsEvent) : Bool :=
  namePairTest team_a team_b ev.home_team ev.away_team &&
    (match ev.commence_time, target_dt with
     | CTime.at t, some g => decide (|t - g| ≤ 60 * 60 * 24)
     | _, _ => true)

/-! ## Probability extractor: `odds_to_probs` -/

/-- Python dict assignment `d[k] = v` on an insertion-ordered association
list: an existing key keeps its position and gets the new value, a new key
is appended.  Lists built from `[]` by this function never hold a key twice,
matching a Python dict. -/
def dictInsert : List (Option String × ℚ) → Option String → ℚ →
    List (Option String × ℚ)
  | [], k, v => [(k, v)]
  | p :: rest, k, v =>
    if p.1 = k then (k, v) :: rest else p :: dictInsert rest k v

/-- The inner loop of `odds_to_probs` building `probs`:
`if price and price > 0: probs[name] = 1.0 / float(price)`
(`price` falsy — `None` or `0` — or non-positive is skipped). -/
def rawProbs : List Outcome → List (Option String × ℚ) →
    List (Option String × ℚ)
  | [], d => d
  | o :: os, d =>
    match o.price with
    | none => rawProbs os d
    | some p =>
      if p ≠ 0 ∧ 0 < p then rawProbs os (dictInsert d o.name (1 / p))
      else rawProbs os d

/-- `sum(probs.values())` over the association-list dict. -/
def vals (d : List (Option String × ℚ)) : ℚ :=
  (d.map Prod.snd).sum

/-- Python `round(x, 1)` on an exact rational: round to tenths, ties to the
even tenth (banker's rounding, as Python's `round` on an exactly
representable value). -/
def round1 (x : ℚ) : ℚ :=
  let f : ℤ := Int.floor (x * 10)
  let r : ℚ := x * 10 - f
  let n : ℤ :=
    if 1 / 2 < r then f + 1
    else if r < 1 / 2 then f
    else if f % 2 = 0 then f else f + 1
  (n : ℚ) / 10

/-- The normalization step of `odds_to_probs`:
`s = sum(probs.values()); if s > 0: probs[k] = round(probs[k] / s * 100, 1);
return probs` — `none` when `s > 0` fails and the scan must continue. -/
def normalizeProbs (d : List (Option String × ℚ)) :
    Option (List (Option String × ℚ)) :=
  let s := vals d
  if 0 < s then some (d.map (fun p => (p.1, round1 (p.2 / s * 100)))) else none

/-- Scan one bookmaker's `markets` list: each market with `key == "h2h"` is
tried in turn; a market whose raw sum is not positive does NOT return, the
loop keeps scanning. -/
def scanMarkets : List Market → Option (List (Option String × ℚ))
  | [] => none
  | m :: ms =>
    if m.key = some "h2h" then
      match normalizeProbs (rawProbs m.outcomes []) with
      | some probs => some probs
      | none => scanMarkets ms
    else scanMarkets ms

/-- Scan the `bookmakers` list with the same fall-through behaviour. -/
def scanBms : List BookmakerQuote → Option (List (Option String × ℚ))
  | [] => none
  | bm :: rest =>
    match scanMarkets bm.markets with
    | some probs => some probs
    | none => scanBms rest

/-- `providers.odds_to_probs` (identical in `main.py`): `None`/falsy input
gives the empty dict, otherwise the nested bookmaker/market scan; if no
normalization step returns, the fall-through `return \x7b\x7d` gives the
empty dict. -/
def odds_to_probs : Option OddsEvent → List (Option String × ℚ)
  | none => []
  | some ev => (scanBms ev.bookmakers).getD []

/-! ## Odds fetcher: `fetch_odds` -/

/-- Outcome of the single `requests.get` call in `fetch_odds`:
the call raised (timeout, DNS, connection error), or it returned a response
with a status code and a body on which `r.json()` either raises
(`body = none`) or yields a list of odds events. -/
inductive FetchOutcome where
  | exn
  | response (status : ℕ) (body : Option (List OddsEvent))

/-- `providers.fetch_odds` (identical in `main.py`), with the environment
credential and the network outcome passed explicitly: a falsy
(unset or empty) `ODDS_API_KEY` returns `[]` before any call; inside the
`try`, a non-200 status returns `[]`, a good status returns `r.json()`, and
any exception — from `requests.get` or from `r.json()` — returns `[]`. -/
def fetch_odds (apiKey : Option String) (out : FetchOutcome) :
    List OddsEvent :=
  if apiKey.getD "" = "" then []
  else
    match out with
    | FetchOutcome.exn => []
    | FetchOutcome.response status body =>
      if status ≠ 200 then []
      else
        match body with
        | none => []
        | some events => events

/-! ## Spec-side definition for the pair-matching claim -/

/-- Written from the spec's words for `names_denote_same_pair`: after
normalization, `target_a` is a substring of one of the candidate fields AND
`target_b` is a substring of the other field (each target matching a
distinct field, in either order), and false when either target normalizes to
empty. -/
def namePairSpec (team_a team_b home_team away_team : String) : Bool :=
  let ta := norm team_a
  let tb := norm team_b
  let home := norm home_team
  let away := norm away_team
  !(ta = "") && !(tb = "") &&
    ((pyIn ta home && pyIn tb away) || (pyIn ta away && pyIn tb home))

/-! ## Concrete records used in the claim instances -/

/-- Candidate with home Colombia, away Brazil, kickoff parsed to epoch
second 0. -/
def evColombia : OddsEvent := ⟨"Colombia", "Brazil", CTime.at 0, []⟩

/-- Candidate whose commence_time field is absent. -/
def evNoTime : OddsEvent := ⟨"Colombia", "Brazil", CTime.absent, []⟩

/-- Candidate whose commence_time is present but unparseable. -/
def evBadTime : OddsEvent := ⟨"Colombia", "Brazil", CTime.bad, []⟩

/-- Bookmaker whose only h2h market has a single zero-price outcome. -/
def bmZero : BookmakerQuote := ⟨[⟨some "h2h", [⟨some "X", some 0⟩]⟩]⟩

/-- Bookmaker whose h2h market has one outcome at price 2. -/
def bmGood : BookmakerQuote := ⟨[⟨some "h2h", [⟨some "A", some 2⟩]⟩]⟩

/-- Odds entry listing bmZero before bmGood. -/
def evTwoBms : OddsEvent := ⟨"", "", CTime.absent, [bmZero, bmGood]⟩

/-- Odds entry whose h2h outcomes are Home at price 0 and Away at price 2. -/
def evZeroHome : OddsEvent :=
  ⟨"", "", CTime.absent,
    [⟨[⟨some "h2h", [⟨some "Home", some 0⟩, ⟨some "Away", some 2⟩]⟩]⟩]⟩

/-- Odds entry with a fair two-outcome h2h market at price 2 each. -/
def evEven : OddsEvent :=
  ⟨"", "", CTime.absent,
    [⟨[⟨some "h2h", [⟨some "Home", some 2⟩, ⟨some "Away", some 2⟩]⟩]⟩]⟩

/-- Odds entry with a five-outcome h2h market: exact implied probabilities
499/2500 four times plus 126/625, summing to 1, so the normalized
percentages are 19.96 four times and 20.16, and every one rounds upward. -/
def evFive : OddsEvent :=
  ⟨"", "", CTime.absent, [⟨[⟨some "h2h",
    [⟨some "A", some (2500 / 499)⟩, ⟨some "B", some (2500 / 499)⟩,
     ⟨some "C", some (2500 / 499)⟩, ⟨some "D", some (2500 / 499)⟩,
     ⟨some "E", some (625 / 126)⟩]⟩]⟩]⟩

/-! ## Helper lemmas -/

theorem leadsWith_iff (n : List Char) : ∀ l : List Char,
    leadsWith n l = true ↔ ∃ t, l = n ++ t := by
  induction n with
  | nil => intro l; simp [leadsWith]
  | cons a as ih =>
    intro l
    cases l with
    | nil => simp [leadsWith]
    | cons b bs =>
      simp only [leadsWith, Bool.and_eq_true, decide_eq_true_eq, ih,
        List.cons_append]
      constructor
      · rintro ⟨rfl, t, rfl⟩; exact ⟨t, rfl⟩
      · rintro ⟨t, h⟩
        injection h with h1 h2
        exact ⟨h1.symm, t, h2⟩

theorem hasSub_iff (n : List Char) : ∀ l : List Char,
    hasSub n l = true ↔ ∃ pre post, l = pre ++ n ++ post := by
  intro l
  induction l with
  | nil =>
    simp only [hasSub, List.isEmpty_iff]
    constructor
    · rintro rfl; exact ⟨[], [], rfl⟩
    · rintro ⟨pre, post, h⟩
      rcases List.append_eq_nil.mp (List.append_eq_nil.mp h.symm).1 with ⟨-, h2⟩
      exact h2
  | cons c rest ih =>
    simp only [hasSub, Bool.or_eq_true, leadsWith_iff, ih]
    constructor
    · rintro (⟨t, h⟩ | ⟨pre, post, h⟩)
      · exact ⟨[], t, by simp [h]⟩
      · exact ⟨c :: pre, post, by simp [h]⟩
    · rintro ⟨pre, post, h⟩
      cases pre with
      | nil => exact Or.inl ⟨post, by simpa using h⟩
      | cons p ps =>
        injection h with h1 h2
        exact Or.inr ⟨ps, post, h2⟩

theorem pyIn_iff (needle hay : String) :
    pyIn needle hay = true ↔ SubStr needle hay :=
  hasSub_iff needle.toList hay.toList

theorem findOddsLoop_eq_find (team_a team_b : String) (target_dt : Option ℤ) :
    ∀ l : List OddsEvent,
      findOddsLoop (norm team_a) (norm team_b) target_dt l =
        List.find? (candidateAccepted team_a team_b target_dt) l := by
  intro l
  induction l with
  | nil => rfl
  | cons ev rest ih =>
    rcases hg : pairGuard (norm team_a) (norm team_b) (norm ev.home_team)
        (norm ev.away_team) with _ | _
    · have hacc : candidateAccepted team_a team_b target_dt ev = false := by
        simp [candidateAccepted, namePairTest, hg]
      rw [List.find?_cons_of_neg _ (by simp [hacc]),
        show findOddsLoop (norm team_a) (norm team_b) target_dt (ev :: rest) =
          findOddsLoop (norm team_a) (norm team_b) target_dt rest by
            simp [findOddsLoop, hg]]
      exact ih
    · rcases hc : ev.commence_time with _ | _ | t
      · have hacc : candidateAccepted team_a team_b target_dt ev = true := by
          simp [candidateAccepted, namePairTest, hg, hc]
        rw [List.find?_cons_of_pos _ hacc]
        simp [findOddsLoop, hg, hc]
      · have hacc : candidateAccepted team_a team_b target_dt ev = true := by
          simp [candidateAccepted, namePairTest, hg, hc]
        rw [List.find?_cons_of_pos _ hacc]
        simp [findOddsLoop, hg, hc]
      · cases target_dt with
        | none =>
          have hacc : candidateAccepted team_a team_b none ev = true := by
            simp [candidateAccepted, namePairTest, hg, hc]
          rw [List.find?_cons_of_pos _ hacc]
          simp [findOddsLoop, hg, hc]
        | some g =>
          by_cases ht : (86400 : ℤ) < |t - g|
          · have hacc : candidateAccepted team_a team_b (some g) ev = false := by
              simp [candidateAccepted, namePairTest, hg, hc, not_le.mpr ht]
            rw [List.find?_cons_of_neg _ (by simp [hacc]),
              show findOddsLoop (norm team_a) (norm team_b) (some g)
                  (ev :: rest) =
                findOddsLoop (norm team_a) (norm team_b) (some g) rest by
                  simp [findOddsLoop, hg, hc, ht]]
            exact ih
          · have hacc : candidateAccepted team_a team_b (some g) ev = true := by
              simp [candidateAccepted, namePairTest, hg, hc, not_lt.mp ht]
            rw [List.find?_cons_of_pos _ hacc]
            simp [findOddsLoop, hg, hc, ht]

theorem find_eq_find (odds_list : List OddsEvent) (team_a team_b : String)
    (target_dt : Option ℤ) :
    find_odds_for_match odds_list team_a team_b target_dt =
      List.find? (candidateAccepted team_a team_b target_dt) odds_list :=
  findOddsLoop_eq_find team_a team_b target_dt odds_list

theorem find_first_accepted (team_a team_b : String) (target_dt : Option ℤ)
    (pre post : List OddsEvent) (ev : OddsEvent)
    (hpre : ∀ x ∈ pre, candidateAccepted team_a team_b target_dt x = false)
    (hacc : candidateAccepted team_a team_b target_dt ev = true) :
    find_odds_for_match (pre ++ ev :: post) team_a team_b target_dt =
      some ev := by
  rw [find_eq_find]
  induction pre with
  | nil => exact List.find?_cons_of_pos _ hacc
  | cons x xs ih =>
    rw [List.cons_append,
      List.find?_cons_of_neg _ (by simp [hpre x (by simp)])]
    exact ih (fun y hy => hpre y (by simp [hy]))

theorem normalizeProbs_some (d probs : List (Option String × ℚ))
    (h : normalizeProbs d = some probs) :
    0 < vals d ∧
      probs = d.map (fun p => (p.1, round1 (p.2 / vals d * 100))) := by
  by_cases hs : 0 < vals d
  · refine ⟨hs, ?_⟩
    simp only [normalizeProbs, if_pos hs, Option.some_inj] at h
    exact h.symm
  · simp [normalizeProbs, hs] at h

theorem scanMarkets_some : ∀ (ms : List Market)
    (probs : List (Option String × ℚ)), scanMarkets ms = some probs →
    ∃ d, 0 < vals d ∧
      probs = d.map (fun p => (p.1, round1 (p.2 / vals d * 100)))
  | [], _, h => by simp [scanMarkets] at h
  | m :: ms, probs, h => by
    by_cases hk : m.key = some "h2h"
    · rcases hn : normalizeProbs (rawProbs m.outcomes []) with _ | p2
      · simp only [scanMarkets, if_pos hk, hn] at h
        exact scanMarkets_some ms probs h
      · simp only [scanMarkets, if_pos hk, hn, Option.some_inj] at h
        subst h
        exact ⟨rawProbs m.outcomes [], normalizeProbs_some _ _ hn⟩
    · simp only [scanMarkets, if_neg hk] at h
      exact scanMarkets_some ms probs h

theorem scanBms_some : ∀ (bms : List BookmakerQuote)
    (probs : List (Option String × ℚ)), scanBms bms = some probs →
    ∃ d, 0 < vals d ∧
      probs = d.map (fun p => (p.1, round1 (p.2 / vals d * 100)))
  | [], _, h => by simp [scanBms] at h
  | bm :: rest, probs, h => by
    rcases hm : scanMarkets bm.markets with _ | p2
    · simp only [scanBms, hm] at h
      exact scanBms_some rest probs h
    · simp only [scanBms, hm, Option.some_inj] at h
      subst h
      exact scanMarkets_some bm.markets _ hm

theorem scanBms_append_none (pre rest : List BookmakerQuote)
    (h : ∀ b ∈ pre, scanMarkets b.markets = none) :
    scanBms (pre ++ rest) = scanBms rest := by
  induction pre with
  | nil => rfl
  | cons b bs ih =>
    have hb : scanMarkets b.markets = none := h b (by simp)
    rw [List.cons_append, show scanBms (b :: (bs ++ rest)) =
      scanBms (bs ++ rest) by simp [scanBms, hb]]
    exact ih (fun x hx => h x (by simp [hx]))

theorem round1_eq_int_div (x : ℚ) : ∃ k : ℤ, round1 x = (k : ℚ) / 10 :=
  ⟨_, rfl⟩

theorem abs_round1_sub (x : ℚ) : |round1 x - x| ≤ 1 / 20 := by
  have h0 : ((Int.floor (x * 10) : ℤ) : ℚ) ≤ x * 10 := Int.floor_le _
  have h1 : x * 10 < (Int.floor (x * 10) : ℤ) + 1 := Int.lt_floor_add_one _
  unfold round1
  dsimp only
  rw [abs_le]
  split_ifs with ha hb hc <;> constructor <;> push_cast <;> linarith

theorem sum_round1_den (l : List ℚ) :
    ∃ K : ℤ, (l.map round1).sum = (K : ℚ) / 10 := by
  induction l with
  | nil => exact ⟨0, by simp⟩
  | cons x xs ih =>
    obtain ⟨K, hK⟩ := ih
    obtain ⟨k, hk⟩ := round1_eq_int_div x
    refine ⟨k + K, ?_⟩
    rw [List.map_cons, List.sum_cons, hK, hk]
    push_cast
    ring

theorem sum_round1_err (l : List ℚ) :
    |(l.map round1).sum - l.sum| ≤ (l.length : ℚ) * (1 / 20) := by
  induction l with
  | nil => simp
  | cons x xs ih =>
    have hx := abs_round1_sub x
    have htri : |round1 x + (xs.map round1).sum - (x + xs.sum)| ≤
        |round1 x - x| + |(xs.map round1).sum - xs.sum| := by
      have : round1 x + (xs.map round1).sum - (x + xs.sum) =
          (round1 x - x) + ((xs.map round1).sum - xs.sum) := by ring
      rw [this]
      exact abs_add _ _
    simp only [List.map_cons, List.sum_cons, List.length_cons]
    push_cast
    linarith

theorem vals_map_pair (d : List (Option String × ℚ))
    (phi : Option String × ℚ → ℚ) :
    vals (d.map (fun p => (p.1, phi p))) = (d.map phi).sum := by
  unfold vals
  rw [List.map_map]
  congr 1

theorem normalized_sum (d : List (Option String × ℚ)) (hs : 0 < vals d) :
    (d.map (fun p => p.2 / vals d * 100)).sum = 100 := by
  have hfun : (fun p : Option String × ℚ => p.2 / vals d * 100) =
      fun p : Option String × ℚ => Prod.snd p * (100 / vals d) := by
    funext p
    ring
  rw [hfun, List.sum_map_mul_right]
  rw [show (d.map Prod.snd).sum = vals d from rfl]
  field_simp

theorem odds_to_probs_sum (e : Option OddsEvent)
    (h : odds_to_probs e ≠ []) :
    ∃ K : ℤ, vals (odds_to_probs e) = (K : ℚ) / 10 ∧
      |vals (odds_to_probs e) - 100| ≤
        ((odds_to_probs e).length : ℚ) * (1 / 20) := by
  rcases e with _ | ev
  · simp [odds_to_probs] at h
  · rcases hb : scanBms ev.bookmakers with _ | probs
    · simp [odds_to_probs, hb] at h
    · obtain ⟨d, hs, hmap⟩ := scanBms_some ev.bookmakers probs hb
      have hres : odds_to_probs (some ev) = probs := by
        simp [odds_to_probs, hb]
      rw [hres]
      have hvals : vals probs =
          ((d.map (fun p => p.2 / vals d * 100)).map round1).sum := by
        rw [hmap, vals_map_pair, List.map_map]
        rfl
      have hlen : probs.length = d.length := by
        rw [hmap, List.length_map]
      obtain ⟨K, hK⟩ := sum_round1_den (d.map (fun p => p.2 / vals d * 100))
      have herr := sum_round1_err (d.map (fun p => p.2 / vals d * 100))
      rw [normalized_sum d hs] at herr
      refine ⟨K, by rw [hvals, hK], ?_⟩
      rw [hvals, hlen]
      simpa using herr

theorem scanMarkets_cons_h2h_some (m : Market) (ms : List Market)
    (probs : List (Option String × ℚ)) (hk : m.key = some "h2h")
    (h : normalizeProbs (rawProbs m.outcomes []) = some probs) :
    scanMarkets (m :: ms) = some probs := by
  simp [scanMarkets, hk, h]

theorem scanBms_cons_none (bm : BookmakerQuote) (rest : List BookmakerQuote)
    (h : scanMarkets bm.markets = none) :
    scanBms (bm :: rest) = scanBms rest := by
  simp [scanBms, h]

theorem scanBms_cons_some (bm : BookmakerQuote) (rest : List BookmakerQuote)
    (probs : List (Option String × ℚ))
    (h : scanMarkets bm.markets = some probs) :
    scanBms (bm :: rest) = some probs := by
  simp [scanBms, h]

theorem raw_even : rawProbs [⟨some "Home", some 2⟩, ⟨some "Away", some 2⟩]
    [] = [(some "Home", 1 / 2), (some "Away", 1 / 2)] := by
  simp only [rawProbs, dictInsert]
  norm_num
  decide

theorem norm_even : normalizeProbs
    [(some "Home", 1 / 2), (some "Away", 1 / 2)] =
    some [(some "Home", 50), (some "Away", 50)] := by
  norm_num [normalizeProbs, vals, round1]

theorem odds_evEven : odds_to_probs (some evEven) =
    [(some "Home", 50), (some "Away", 50)] := by
  show (scanBms evEven.bookmakers).getD [] = _
  rw [show evEven.bookmakers =
    [⟨[⟨some "h2h", [⟨some "Home", some 2⟩, ⟨some "Away", some 2⟩]⟩]⟩]
    from rfl]
  rw [scanBms_cons_some _ _ _ (scanMarkets_cons_h2h_some _ _ _ rfl
    (by rw [raw_even]; exact norm_even))]
  rfl

theorem scan_bmZero : scanMarkets bmZero.markets = none := by
  have hraw : rawProbs [⟨some "X", some 0⟩] [] = [] := by
    norm_num [rawProbs]
  have hnorm : normalizeProbs ([] : List (Option String × ℚ)) = none := by
    norm_num [normalizeProbs, vals]
  rw [show bmZero.markets = [⟨some "h2h", [⟨some "X", some 0⟩]⟩] from rfl]
  rw [scanMarkets, if_pos rfl, hraw, hnorm, scanMarkets]

theorem scan_bmGood : scanMarkets bmGood.markets = some [(some "A", 100)] := by
  have hraw : rawProbs [⟨some "A", some 2⟩] [] = [(some "A", 1 / 2)] := by
    simp only [rawProbs, dictInsert]
    norm_num
  have hnorm : normalizeProbs [(some "A", 1 / 2)] = some [(some "A", 100)] := by
    norm_num [normalizeProbs, vals, round1]
  rw [show bmGood.markets = [⟨some "h2h", [⟨some "A", some 2⟩]⟩] from rfl]
  rw [scanMarkets, if_pos rfl, hraw, hnorm]

theorem odds_evTwoBms : odds_to_probs (some evTwoBms) = [(some "A", 100)] := by
  show (scanBms evTwoBms.bookmakers).getD [] = _
  rw [show evTwoBms.bookmakers = [bmZero, bmGood] from rfl]
  rw [scanBms_cons_none _ _ scan_bmZero, scanBms_cons_some _ _ _ scan_bmGood]
  rfl

theorem odds_evZeroHome : odds_to_probs (some evZeroHome) =
    [(some "Away", 100)] := by
  have hraw : rawProbs [⟨some "Home", some 0⟩, ⟨some "Away", some 2⟩] [] =
      [(some "Away", 1 / 2)] := by
    simp only [rawProbs, dictInsert]
    norm_num
  have hnorm : normalizeProbs [(some "Away", 1 / 2)] =
      some [(some "Away", 100)] := by
    norm_num [normalizeProbs, vals, round1]
  show (scanBms evZeroHome.bookmakers).getD [] = _
  rw [show evZeroHome.bookmakers =
    [⟨[⟨some "h2h", [⟨some "Home", some 0⟩, ⟨some "Away", some 2⟩]⟩]⟩]
    from rfl]
  rw [scanBms_cons_some _ _ _ (scanMarkets_cons_h2h_some _ _ _ rfl
    (by rw [hraw]; exact hnorm))]
  rfl

theorem odds_evFive : odds_to_probs (some evFive) =
    [(some "A", 20), (some "B", 20), (some "C", 20), (some "D", 20),
      (some "E", 101 / 5)] := by
  have hraw : rawProbs
      [⟨some "A", some (2500 / 499)⟩, ⟨some "B", some (2500 / 499)⟩,
       ⟨some "C", some (2500 / 499)⟩, ⟨some "D", some (2500 / 499)⟩,
       ⟨some "E", some (625 / 126)⟩] [] =
      [(some "A", 499 / 2500), (some "B", 499 / 2500),
       (some "C", 499 / 2500), (some "D", 499 / 2500),
       (some "E", 126 / 625)] := by
    simp only [rawProbs, dictInsert]
    norm_num
    split_ifs <;> simp_all
  have hnorm : normalizeProbs
      [(some "A", (499 : ℚ) / 2500), (some "B", 499 / 2500),
       (some "C", 499 / 2500), (some "D", 499 / 2500),
       (some "E", 126 / 625)] =
      some [(some "A", 20), (some "B", 20), (some "C", 20), (some "D", 20),
        (some "E", 101 / 5)] := by
    norm_num [normalizeProbs, vals, round1]
    rw [show Int.fract ((998 : ℚ) / 5) = 3 / 5 by rw [Int.fract]; norm_num,
      show Int.fract ((1008 : ℚ) / 5) = 3 / 5 by rw [Int.fract]; norm_num]
    norm_num
  show (scanBms evFive.bookmakers).getD [] = _
  rw [show evFive.bookmakers = [⟨[⟨some "h2h",
    [⟨some "A", some (2500 / 499)⟩, ⟨some "B", some (2500 / 499)⟩,
     ⟨some "C", some (2500 / 499)⟩, ⟨some "D", some (2500 / 499)⟩,
     ⟨some "E", some (625 / 126)⟩]⟩]⟩] from rfl]
  rw [scanBms_cons_some _ _ _ (scanMarkets_cons_h2h_some _ _ _ rfl
    (by rw [hraw]; exact hnorm))]
  rfl

/-! ## Claim theorems -/

/-- C1 (amended): the pair-matching test of find_odds_for_match succeeds
exactly when both names normalize to non-empty strings and each normalized
target is, independently, a substring of the normalized home field or of the
normalized away field; the two targets are NOT forced onto distinct
fields. -/
theorem C1_pair_test_characterization
    (team_a team_b home_team away_team : String) :
    namePairTest team_a team_b home_team away_team = true ↔
      (norm team_a ≠ "" ∧ norm team_b ≠ "" ∧
        (SubStr (norm team_a) (norm home_team) ∨
          SubStr (norm team_a) (norm away_team)) ∧
        (SubStr (norm team_b) (norm home_team) ∨
          SubStr (norm team_b) (norm away_team))) := by
  simp only [namePairTest, pairGuard, Bool.and_eq_true, Bool.or_eq_true,
    Bool.not_eq_true', decide_eq_false_iff_not, pyIn_iff]
  tauto

/-- C1 counterexample: with targets Colombia and Col against home Colombia,
away Brazil, both targets match the home field only, so the code's test
passes while the claimed distinct-field condition fails. -/
theorem C1_counterexample :
    namePairTest "Colombia" "Col" "Colombia" "Brazil" = true ∧
      namePairSpec "Colombia" "Col" "Colombia" "Brazil" = false := by
  decide

/-- C2 (amended): odds_to_probs returns the distribution of the first
bookmaker whose own market scan yields a head-to-head market with positive
raw sum; a bookmaker whose h2h markets all fail (zero sum, or no h2h key)
is passed over and LATER bookmakers are consulted, and only when every
bookmaker fails is the empty mapping returned. -/
theorem C2_first_positive_bookmaker (home away : String) (c : CTime)
    (pre post : List BookmakerQuote) (bm : BookmakerQuote)
    (probs : List (Option String × ℚ))
    (hpre : ∀ b ∈ pre, scanMarkets b.markets = none)
    (hbm : scanMarkets bm.markets = some probs) :
    odds_to_probs (some ⟨home, away, c, pre ++ bm :: post⟩) = probs ∧
      ∀ (home2 away2 : String) (c2 : CTime) (bms : List BookmakerQuote),
        (∀ b ∈ bms, scanMarkets b.markets = none) →
        odds_to_probs (some ⟨home2, away2, c2, bms⟩) = [] := by
  constructor
  · show (scanBms (pre ++ bm :: post)).getD [] = probs
    rw [scanBms_append_none pre (bm :: post) hpre,
      scanBms_cons_some _ _ _ hbm]
    rfl
  · intro home2 away2 c2 bms hall
    have hnone : scanBms bms = scanBms [] := by
      simpa using scanBms_append_none bms [] hall
    show (scanBms bms).getD [] = []
    rw [hnone]
    rfl

/-- C2 witness: instantiates the amended claim at a zero-price first
bookmaker followed by a valid one. -/
theorem C2_first_positive_bookmaker_witness :
    odds_to_probs (some ⟨"", "", CTime.absent, [bmZero] ++ bmGood :: []⟩) =
        [(some "A", 100)] ∧
      ∀ (home2 away2 : String) (c2 : CTime) (bms : List BookmakerQuote),
        (∀ b ∈ bms, scanMarkets b.markets = none) →
        odds_to_probs (some ⟨home2, away2, c2, bms⟩) = [] :=
  C2_first_positive_bookmaker "" "" CTime.absent [bmZero] [] bmGood
    [(some "A", 100)]
    (by intro b hb; rw [List.mem_singleton.mp hb]; exact scan_bmZero)
    scan_bmGood

/-- C2 counterexample: the first bookmaker's h2h market has raw sum zero,
yet the result is non-empty — it is taken from the SECOND bookmaker — where
the claim demands the empty mapping with later bookmakers never consulted. -/
theorem C2_counterexample :
    odds_to_probs (some evTwoBms) = [(some "A", 100)] ∧
      odds_to_probs (some evTwoBms) ≠ [] := by
  refine ⟨odds_evTwoBms, ?_⟩
  rw [odds_evTwoBms]
  simp

/-- C3 (amended): norm lower-cases, strips surrounding whitespace and folds
the accented vowels, so the Córdoba and CARLOS ALCARAZ identities hold and
empty input maps to the empty string; periods are NOT stripped, so
"J. Sinner" keeps its period after normalization. -/
theorem C3_norm_behaviour :
    norm "Córdoba" = "cordoba" ∧ norm "Cordoba" = "cordoba" ∧
      norm "CARLOS ALCARAZ" = "carlos alcaraz" ∧
      norm "carlos alcaraz" = "carlos alcaraz" ∧
      norm "  Zverev " = "zverev" ∧ norm "" = "" ∧
      norm "J. Sinner" = "j. sinner" := by
  decide

/-- C3 counterexample: norm does not strip periods, so the initials
identity claimed for "J. Sinner" versus "J Sinner" fails on the code. -/
theorem C3_counterexample : norm "J. Sinner" ≠ norm "J Sinner" := by
  decide

/-- C4 (amended): a non-empty odds_to_probs result consists of tenths whose
sum deviates from 100 by at most one twentieth per entry, so whenever the
selected h2h market contributes at most three entries — the shape the
spec's glossary gives a head-to-head market — the percentage values sum to
100 within 0.1.  Markets with more outcomes can exceed the tolerance. -/
theorem C4_sum_within_tolerance (e : Option OddsEvent)
    (hlen : (odds_to_probs e).length ≤ 3) :
    odds_to_probs e = [] ∨ |vals (odds_to_probs e) - 100| ≤ 1 / 10 := by
  by_cases h : odds_to_probs e = []
  · exact Or.inl h
  · right
    obtain ⟨K, hK, herr⟩ := odds_to_probs_sum e h
    have hlenQ : ((odds_to_probs e).length : ℚ) ≤ 3 := by exact_mod_cast hlen
    rw [hK] at herr
    have h320 : |(K : ℚ) / 10 - 100| ≤ 3 / 20 := by
      calc |(K : ℚ) / 10 - 100| ≤ ((odds_to_probs e).length : ℚ) * (1 / 20) :=
            herr
        _ ≤ 3 / 20 := by linarith
    have habs10 : |(K : ℚ) / 10 - 100| = |(K : ℚ) - 1000| / 10 := by
      rw [show (K : ℚ) / 10 - 100 = ((K : ℚ) - 1000) / 10 by ring, abs_div]
      norm_num
    have habs : |(K : ℚ) - 1000| ≤ 3 / 2 := by
      rw [habs10] at h320
      linarith
    have hint : |K - 1000| ≤ 1 := by
      by_contra hcon
      push_neg at hcon
      have h2 : (1 : ℤ) + 1 ≤ |K - 1000| := Int.add_one_le_iff.mpr hcon
      have h2Q : ((1 : ℤ) + 1 : ℚ) ≤ ((|K - 1000| : ℤ) : ℚ) := by
        exact_mod_cast h2
      rw [Int.cast_abs] at h2Q
      push_cast at h2Q
      linarith
    have hintQ : |(K : ℚ) - 1000| ≤ 1 := by
      have hle : ((|K - 1000| : ℤ) : ℚ) ≤ ((1 : ℤ) : ℚ) := by
        exact_mod_cast hint
      rw [Int.cast_abs] at hle
      push_cast at hle
      linarith
    rw [hK, habs10]
    linarith

/-- C4 witness: the fair two-outcome entry has two entries and its values
50 and 50 sum to exactly 100. -/
theorem C4_sum_within_tolerance_witness :
    (odds_to_probs (some evEven)).length ≤ 3 ∧
      (odds_to_probs (some evEven) = [] ∨
        |vals (odds_to_probs (some evEven)) - 100| ≤ 1 / 10) :=
  ⟨by rw [odds_evEven]; simp,
    C4_sum_within_tolerance (some evEven) (by rw [odds_evEven]; simp)⟩

/-- C4 counterexample: the five-outcome entry yields the non-empty mapping
with values 20.0, 20.0, 20.0, 20.0 and 20.2, summing to 100.2 — outside
the claimed 0.1 tolerance around 100. -/
theorem C4_counterexample :
    ¬(odds_to_probs (some evFive) = [] ∨
        |vals (odds_to_probs (some evFive)) - 100| ≤ 1 / 10) := by
  rw [odds_evFive]
  push_neg
  constructor
  · simp
  · rw [show vals [(some "A", (20 : ℚ)), (some "B", 20), (some "C", 20),
      (some "D", 20), (some "E", 101 / 5)] = 501 / 5 by norm_num [vals]]
    rw [show |(501 : ℚ) / 5 - 100| = 1 / 5 by
      rw [show (501 : ℚ) / 5 - 100 = 1 / 5 by norm_num]
      exact abs_of_nonneg (by norm_num)]
    norm_num

/-- C5: the correlator scans candidates in provider order and returns the
first one accepted — name-pair test passed and, when both a parsed
commence time and a target time exist, lying within the 24-hour window —
with none returned when no candidate qualifies or the list is empty; the
spec's Colombia/Brazil example holds at +2h and fails at +25h. -/
theorem C5_first_match_characterization :
    (∀ (odds_list : List OddsEvent) (team_a team_b : String)
        (target_dt : Option ℤ),
      find_odds_for_match odds_list team_a team_b target_dt =
        List.find? (candidateAccepted team_a team_b target_dt) odds_list) ∧
      find_odds_for_match [evColombia] "Brazil" "Colombia" (some 7200) =
        some evColombia ∧
      find_odds_for_match [evColombia] "Brazil" "Colombia" (some 90000) =
        none ∧
      ∀ (team_a team_b : String) (target_dt : Option ℤ),
        find_odds_for_match [] team_a team_b target_dt = none :=
  ⟨fun odds_list team_a team_b target_dt =>
      find_eq_find odds_list team_a team_b target_dt,
    by decide, by decide, fun _ _ _ => rfl⟩

/-- C6: when the target time is absent or the candidate's commence_time
field is absent, a candidate passing the name-pair test is returned with no
time filtering, as soon as it is reached. -/
theorem C6_no_time_filter_when_absent (team_a team_b : String)
    (target_dt : Option ℤ) (pre post : List OddsEvent) (ev : OddsEvent)
    (hpre : ∀ x ∈ pre, candidateAccepted team_a team_b target_dt x = false)
    (hname : namePairTest team_a team_b ev.home_team ev.away_team = true)
    (habs : target_dt = none ∨ ev.commence_time = CTime.absent) :
    find_odds_for_match (pre ++ ev :: post) team_a team_b target_dt =
      some ev := by
  apply find_first_accepted team_a team_b target_dt pre post ev hpre
  rcases habs with rfl | hc
  · rcases hct : ev.commence_time <;> simp [candidateAccepted, hname, hct]
  · simp [candidateAccepted, hname, hc]

/-- C6 witness: a candidate without commence_time is returned on the name
match even though a target time is supplied. -/
theorem C6_no_time_filter_when_absent_witness :
    namePairTest "Colombia" "Brazil" evNoTime.home_team evNoTime.away_team =
        true ∧
      find_odds_for_match ([] ++ evNoTime :: []) "Colombia" "Brazil"
        (some 0) = some evNoTime :=
  ⟨by decide,
    C6_no_time_filter_when_absent "Colombia" "Brazil" (some 0) [] [] evNoTime
      (by simp) (by decide) (Or.inr rfl)⟩

/-- C7: an outcome whose price is missing, zero or negative is skipped by
the probability-building loop (hence excluded from the mapping and from the
normalizing sum); concretely the Home-at-0 / Away-at-2 entry yields the
single pair Away at 100.0, and a None entry yields the empty mapping. -/
theorem C7_invalid_price_excluded (o : Outcome) (os : List Outcome)
    (d : List (Option String × ℚ))
    (h : o.price = none ∨ ∃ p, o.price = some p ∧ p ≤ 0) :
    rawProbs (o :: os) d = rawProbs os d ∧
      odds_to_probs (some evZeroHome) = [(some "Away", 100)] ∧
      odds_to_probs none = [] := by
  refine ⟨?_, odds_evZeroHome, rfl⟩
  rcases h with hn | ⟨p, hp, hple⟩
  · simp [rawProbs, hn]
  · simp [rawProbs, hp, not_lt.mpr hple]

/-- C7 witness: instantiated at the zero-price Home outcome. -/
theorem C7_invalid_price_excluded_witness :
    rawProbs [⟨some "Home", some 0⟩, ⟨some "Away", some 2⟩] [] =
        rawProbs [⟨some "Away", some 2⟩] [] ∧
      odds_to_probs (some evZeroHome) = [(some "Away", 100)] ∧
      odds_to_probs none = [] :=
  C7_invalid_price_excluded ⟨some "Home", some 0⟩ [⟨some "Away", some 2⟩] []
    (Or.inr ⟨0, rfl, le_refl 0⟩)

/-- C8: with a missing or empty credential, a raised request call, a
non-200 status, or a body on which JSON decoding raises, fetch_odds
returns the empty list — every failure path ends in the early returns of
the function, none escapes. -/
theorem C8_fetch_fail_soft (apiKey : Option String) (out : FetchOutcome)
    (h : apiKey.getD "" = "" ∨ out = FetchOutcome.exn ∨
      (∃ status body, out = FetchOutcome.response status body ∧
        status ≠ 200) ∨
      ∃ status, out = FetchOutcome.response status none) :
    fetch_odds apiKey out = [] := by
  rcases h with hk | rfl | ⟨s, b, rfl, hs⟩ | ⟨s, rfl⟩
  · simp [fetch_odds, hk]
  · unfold fetch_odds
    split <;> rfl
  · unfold fetch_odds
    split
    · rfl
    · simp [hs]
  · unfold fetch_odds
    split
    · rfl
    · by_cases h200 : s ≠ 200 <;> simp [h200]

/-- C8 witness: unset credential together with a raised request. -/
theorem C8_fetch_fail_soft_witness : fetch_odds none FetchOutcome.exn = [] :=
  C8_fetch_fail_soft none FetchOutcome.exn (Or.inl rfl)

/-- C9: a candidate that passes the name-pair test and whose commence_time
is present but unparseable is returned as soon as it is reached — the
parse exception is swallowed and the 24-hour filter is skipped, never
causing the candidate to be skipped. -/
theorem C9_bad_timestamp_not_skipped (team_a team_b : String) (g : ℤ)
    (pre post : List OddsEvent) (ev : OddsEvent)
    (hpre : ∀ x ∈ pre, candidateAccepted team_a team_b (some g) x = false)
    (hname : namePairTest team_a team_b ev.home_team ev.away_team = true)
    (hbad : ev.commence_time = CTime.bad) :
    find_odds_for_match (pre ++ ev :: post) team_a team_b (some g) =
      some ev := by
  apply find_first_accepted team_a team_b (some g) pre post ev hpre
  simp [candidateAccepted, hname, hbad]

/-- C9 witness: a malformed-timestamp candidate is returned even with a
target time present. -/
theorem C9_bad_timestamp_not_skipped_witness :
    namePairTest "Colombia" "Brazil" evBadTime.home_team
        evBadTime.away_team = true ∧
      find_odds_for_match ([] ++ evBadTime :: []) "Colombia" "Brazil"
        (some 0) = some evBadTime :=
  ⟨by decide,
    C9_bad_timestamp_not_skipped "Colombia" "Brazil" 0 [] [] evBadTime
      (by simp) (by decide) rfl⟩

/-- C10: a successful correlation returns one of the entries of the input
candidate list, unmodified. -/
theorem C10_result_membership (odds_list : List OddsEvent)
    (team_a team_b : String) (target_dt : Option ℤ) (ev : OddsEvent)
    (h : find_odds_for_match odds_list team_a team_b target_dt = some ev) :
    ev ∈ odds_list := by
  rw [find_eq_find] at h
  exact List.mem_of_find?_eq_some h

/-- C10 witness: the found entry is the list's own element. -/
theorem C10_result_membership_witness :
    find_odds_for_match [evNoTime] "Colombia" "Brazil" none =
        some evNoTime ∧
      evNoTime ∈ [evNoTime] :=
  ⟨by decide,
    C10_result_membership [evNoTime] "Colombia" "Brazil" none evNoTime
      (by decide)⟩

end Deportes
